import Mathlib

/-!
Verification development for the `generate-aws-sdk/generate.py` driver.

The script drives code generation for AWS service definitions: per unit
(sdk id) it locates a description file, extracts the service key, derives
names, synthesizes a `smithy-build.json`, runs the external build, extracts
diagnostics on failure, removes the transient `build/` directory, and a
bounded thread pool fans this pipeline out over units.

The shallow embedding below mirrors the source:
  - `snake_case`, `ub`/`rep` model the regex boundary insertion,
    `str.lower` (ASCII), and the chained `str.replace` calls;
  - `generate` models the per-unit pipeline over an explicit environment
    (glob result, parse results, copy success, build exit status, grep
    output) and an explicit per-unit workspace state;
  - `mainTrace` models the scheduler loop: one terminal report per unit
    followed by the final summary, with exceptions caught per unit.
-/

/- ===== String machinery (models of Python string operations) ===== -/

/-- Model of `65 <= ord(c) <= 90`, the class matched by the regex `[A-Z]`. -/
def isUpperAscii (c : Char) : Bool :=
  65 ≤ c.toNat && c.toNat ≤ 90

/-- Model of `str.lower` on one character (ASCII range, as exercised by
identifier inputs). -/
def toLowerAscii (c : Char) : Char :=
  if isUpperAscii c then Char.ofNat (c.toNat + 32) else c

/-- Underscore insertion for every position after the first: the tail part
of the regex substitution `re.sub(r"(?<!^)(?=[A-Z])", "_", x)`. -/
def ubGo : List Char → List Char
  | [] => []
  | c :: s => if isUpperAscii c then '_' :: c :: ubGo s else c :: ubGo s

/-- Model of `re.compile(r"(?<!^)(?=[A-Z])").sub("_", x)`: an underscore is
inserted before every uppercase letter except at position zero. -/
def ub : List Char → List Char
  | [] => []
  | c :: s => c :: ubGo s

/-- Decides whether `p` is a list prefix of `s` (character equality). -/
def SW : List Char → List Char → Bool
  | [], _ => true
  | _ :: _, [] => false
  | a :: as, b :: bs => a == b && SW as bs

/-- Decides whether pattern `q` occurs as a contiguous substring of `s`. -/
def occB (q : List Char) : List Char → Bool
  | [] => SW q []
  | c :: s => SW q (c :: s) || occB q s

/-- Worker for `rep`: `k` counts characters of an already-matched pattern
occurrence that remain to be skipped. -/
def repGo (p r : List Char) : List Char → Nat → List Char
  | [], _ => []
  | _ :: s, k + 1 => repGo p r s k
  | c :: s, 0 =>
    if SW p (c :: s) then r ++ repGo p r s (p.length - 1)
    else c :: repGo p r s 0

/-- Model of Python `s.replace(p, r)` for a nonempty pattern `p`: scan left
to right, replace every non-overlapping occurrence, never rescan the
replacement text. (The script only calls `replace` with nonempty literal
patterns.) -/
def rep (p r s : List Char) : List Char :=
  repGo p r s 0

/-- Model of the `snake_case` helper in `generate.py`: insert underscores
before internal uppercase letters, lowercase, then apply the three literal
replacements in source order. -/
def snake_case (x : String) : String :=
  String.mk (rep ("_d_b".data) ("_db".data)
    (rep ("e_c2".data) ("ec2".data)
      (rep ("a_w_s".data) ("aws".data)
        (List.map toLowerAscii (ub x.data)))))

/-- Model of Python `s.split(sep)` for a single-character separator. -/
def splitCh (sep : Char) : List Char → List (List Char)
  | [] => [[]]
  | c :: s =>
    match splitCh sep s with
    | [] => [[]]
    | r :: rs => if c == sep then [] :: r :: rs else (c :: r) :: rs

/-- Model of `key.split("#")[0].split(".")[-1]` from `generate`. -/
def model_name (key : String) : String :=
  String.mk ((splitCh '.' ((splitCh '#' key.data).headD [])).getLastD [])

/-- Model of `module_name = snake_case(model_name)`. -/
def module_name (key : String) : String :=
  snake_case (model_name key)

/-- Model of `namespace = "aws." + module_name`. -/
def module_namespace (key : String) : String :=
  "aws." ++ module_name key

/- ===== Spec-side Name Deriver (for the refinement claim C2) ===== -/

/-- Spec-side boundary insertion, following the spec words: underscores are
inserted before each internal uppercase-letter boundary, with no underscore
before a leading capital. The `started` flag records that the position is
internal. -/
def specInsertUnderscores (started : Bool) : List Char → List Char
  | [] => []
  | c :: s =>
    (if started && isUpperAscii c then ['_', c] else [c])
      ++ specInsertUnderscores true s

/-- Spec-side Name Deriver: boundary insertion, lowercasing, then the fixed
sequence of literal substring replacements in the stated order. -/
def specDerive (x : String) : String :=
  String.mk (rep ("_d_b".data) ("_db".data)
    (rep ("e_c2".data) ("ec2".data)
      (rep ("a_w_s".data) ("aws".data)
        (List.map toLowerAscii (specInsertUnderscores false x.data)))))

/- ===== Pipeline model ===== -/

/-- Error kinds that the per-unit pipeline can raise (Python exceptions
propagating out of `generate`). -/
inductive PyErr where
  /-- `json.load` failed: the description file is not valid JSON. -/
  | parseErr (path : String)
  /-- The jq query found no service-typed shape entry. -/
  | resolutionErr (path : String)
  /-- A filesystem operation failed (here: `shutil.copy`). -/
  | ioErr (op : String)
deriving DecidableEq, Repr

/-- Normal-return results of `generate`. -/
inductive GenResult where
  /-- No description file was found: `generate` printed and returned. -/
  | skippedNoSource
  /-- `smithy build` exited with status 0. -/
  | succeeded
  /-- `smithy build` exited with a nonzero status. -/
  | failedBuild
deriving DecidableEq, Repr

/-- The external collaborators of one unit pipeline: the glob result, the
parse result per path (shapes as key-type pairs, `none` for invalid JSON),
whether `shutil.copy` raises, the build exit status, and the output of the
`ag "ERROR"` scrape. -/
structure Env where
  json_files : List String
  docs : String → Option (List (String × String))
  copyFails : Bool
  buildReturn : Int
  agOutput : String

/-- Observable per-unit workspace state: which directories exist and which
files have been written (with contents where a claim inspects them). -/
structure Workspace where
  outDirExists : Bool := false
  modelDirExists : Bool := false
  buildDirExists : Bool := false
  configFile : Option String := none
  logFileExists : Bool := false
  errorsFile : Option String := none
deriving DecidableEq, Repr

/-- The workspace state before a unit pipeline runs. -/
def initWS : Workspace := {}

/-- Model of the jq query
`.shapes | to_entries[] | select(.value.type == "service") | .key`
followed by `.first()`: the key of the first service-typed entry. -/
def firstServiceKey (shapes : List (String × String)) : Option String :=
  (shapes.find? (fun e => e.2 == "service")).map (fun e => e.1)

/-- The synthesized generator-plugin parameters. -/
structure PluginCfg where
  service : String
  name : String
  namespace' : String
  outputDir : String
deriving DecidableEq, Repr

/-- The synthesized `smithy-build.json` document (the `build_json` dict). -/
structure BuildConfig where
  version : String
  sources : List String
  dependencies : List String
  repositories : List String
  plugin : PluginCfg
deriving DecidableEq, Repr

/-- Model of the `build_json` dict constructed in `generate`. -/
def buildJson (key : String) : BuildConfig :=
  { version := "1.0"
    sources := ["model"]
    dependencies :=
      [ "software.amazon.smithy:smithy-aws-traits:1.64.0"
      , "software.amazon.smithy:smithy-aws-endpoints:1.64.0"
      , "software.amazon.smithy:smithy-aws-smoke-test-model:1.64.0"
      , "software.amazon.smithy:smithy-aws-iam-traits:1.64.0"
      , "io.smithy.unison:smithy-unison:0.1.0" ]
    repositories :=
      [ "https://repo1.maven.org/maven2"
      , "file://$\x7buser.home\x7d/.m2/repository" ]
    plugin :=
      { service := key
        name := model_name key
        namespace' := module_namespace key
        outputDir := "generated" } }

/-- Serializes one JSON string value (the synthesized strings contain no
characters needing escapes). -/
def jsonStr (s : String) : String := "\"" ++ s ++ "\""

/-- Serializes a string list as a JSON array at the given indent. -/
def jsonStrList (indent : String) (xs : List String) : String :=
  "[\n" ++ String.intercalate ",\n" (xs.map (fun x => indent ++ jsonStr x))
    ++ "\n"

/-- Model of `json.dump(build_json, ..., indent=2)`: the serialized bytes of
the configuration document. -/
def serializeConfig (c : BuildConfig) : String :=
  "\x7b\n  \"version\": " ++ jsonStr c.version ++ ",\n"
    ++ "  \"sources\": " ++ jsonStrList "    " c.sources ++ "  ],\n"
    ++ "  \"maven\": \x7b\n"
    ++ "    \"dependencies\": " ++ jsonStrList "      " c.dependencies
    ++ "    ],\n"
    ++ "    \"repositories\": [\n"
    ++ String.intercalate ",\n"
        (c.repositories.map (fun u =>
          "      \x7b\n        \"url\": " ++ jsonStr u ++ "\n      \x7d"))
    ++ "\n    ]\n  \x7d,\n"
    ++ "  \"plugins\": \x7b\n    \"unison-codegen\": \x7b\n"
    ++ "      \"service\": " ++ jsonStr c.plugin.service ++ ",\n"
    ++ "      \"name\": " ++ jsonStr c.plugin.name ++ ",\n"
    ++ "      \"namespace\": " ++ jsonStr c.plugin.namespace' ++ ",\n"
    ++ "      \"outputDir\": " ++ jsonStr c.plugin.outputDir
    ++ "\n    \x7d\n  \x7d\n\x7d"

/-- The bytes of the configuration file written for service key `key`. -/
def configText (key : String) : String :=
  serializeConfig (buildJson key)

/-- Model of the `generate(sdk_id, ...)` pipeline body over environment
`env` and initial workspace state `w`. Mirrors the source order: glob, parse
first match, jq service key, makedirs (output, model, build), copy source,
write config, run build writing the log, on nonzero status scrape the log
into `errors.txt`, then `shutil.rmtree` of the build directory. Exceptions
propagate as `Except.error` together with the workspace state left behind;
there is no handler inside `generate`. -/
def generate (env : Env) (w : Workspace) : Except PyErr GenResult × Workspace :=
  match env.json_files with
  | [] => (.ok .skippedNoSource, w)
  | source_path :: _ =>
    match env.docs source_path with
    | none => (.error (.parseErr source_path), w)
    | some data =>
      match firstServiceKey data with
      | none => (.error (.resolutionErr source_path), w)
      | some key =>
        let w1 : Workspace :=
          { w with outDirExists := true, modelDirExists := true,
                   buildDirExists := true }
        if env.copyFails then (.error (.ioErr "copy"), w1)
        else
          let w2 : Workspace := { w1 with configFile := some (configText key) }
          let w3 : Workspace := { w2 with logFileExists := true }
          let w4 : Workspace :=
            if env.buildReturn ≠ 0 then { w3 with errorsFile := some env.agOutput }
            else w3
          let w5 : Workspace := { w4 with buildDirExists := false }
          (.ok (if env.buildReturn = 0 then .succeeded else .failedBuild), w5)

/- ===== Scheduler model ===== -/

/-- Terminal outcome of one unit as observed by the scheduler loop. -/
inductive Outcome where
  | skipped
  | success
  | failed
  | errored (e : PyErr)
deriving DecidableEq, Repr

/-- The `try: future.result() except Exception` boundary in `main`: a raised
exception becomes an errored report, a normal return keeps its result. -/
def outcomeOf : Except PyErr GenResult → Outcome
  | .ok .skippedNoSource => .skipped
  | .ok .succeeded => .success
  | .ok .failedBuild => .failed
  | .error e => .errored e

/-- One unit task as run by the pool: the pipeline on a fresh workspace with
the exception caught at the scheduler boundary. -/
def runUnit (envOf : String → Env) (sdk : String) : Outcome :=
  outcomeOf (generate (envOf sdk) initWS).1

/-- Model of `max_workers = min(len(sdks), os.cpu_count() * 4, 64)`. -/
def maxWorkers (nSdks cpus : Nat) : Nat :=
  min (min nSdks (cpus * 4)) 64

/-- Spec-side pool size: min(number of units, 4 x available parallelism,
hard cap). -/
def specPoolSize (n p cap : Nat) : Nat :=
  min n (min (4 * p) cap)

/-- Events printed by the run: one terminal report per unit, then the final
summary (unit count and worker count). -/
inductive Event where
  | unitReport (sdk : String) (o : Outcome)
  | summaryReport (nSdks : Nat) (workers : Nat)
deriving DecidableEq, Repr

/-- Model of `main`: every submitted unit produces exactly one terminal
report (collected over `as_completed`, here in submission order), and the
summary is printed after the pool is drained. -/
def mainTrace (sdks : List String) (envOf : String → Env) (cpus : Nat) :
    List Event :=
  (sdks.map (fun sdk => Event.unitReport sdk (runUnit envOf sdk)))
    ++ [Event.summaryReport sdks.length (maxWorkers sdks.length cpus)]

/-- Recognizes a per-unit terminal report in the trace. -/
def isUnitReport : Event → Bool
  | .unitReport _ _ => true
  | .summaryReport _ _ => false

/- ===== Concrete sample environments (used by witnesses and
counterexamples) ===== -/

/-- A parsed description document with one service-typed shape entry. -/
def sampleShapes : List (String × String) :=
  [("com.amazonaws.s3#AmazonS3", "service")]

/-- A unit whose description file parses, whose copy succeeds, and whose
build exits 0. -/
def envOkBuild : Env :=
  { json_files := ["api-models-aws-main/models/s3/model.json"]
    docs := fun _ => some sampleShapes
    copyFails := false
    buildReturn := 0
    agOutput := "" }

/-- Same unit, but the external build exits with status 2 and the error
scrape finds nothing. -/
def envFailBuild : Env := { envOkBuild with buildReturn := 2 }

/-- Same unit, but `shutil.copy` raises after the directories were made. -/
def envCopyFail : Env := { envOkBuild with copyFails := true }

/-- A unit directory containing zero description files. -/
def envNoFiles : Env := { envOkBuild with json_files := [] }

/-- A two-unit run where the first unit raises and the second succeeds. -/
def envOfSample : String → Env := fun sdk =>
  if sdk = "s3" then envCopyFail else envOkBuild

/- ===== Lemmas about the string machinery ===== -/

/-- The list of suffixes of a character list (longest first, ending with
the empty suffix). -/
def suffixes : List Char → List (List Char)
  | [] => [[]]
  | c :: s => (c :: s) :: suffixes s

theorem rep_nil (p r : List Char) : rep p r [] = [] := rfl

theorem repGo_skip (p r : List Char) :
    ∀ (s : List Char) (k : Nat), repGo p r s k = repGo p r (List.drop k s) 0 := by
  intro s
  induction s with
  | nil => intro k; simp [repGo]
  | cons c s ih =>
    intro k
    cases k with
    | zero => simp
    | succ j =>
      simp only [repGo, List.drop_succ_cons]
      exact ih j

theorem rep_cons (p r : List Char) (c : Char) (s : List Char) :
    rep p r (c :: s) =
      if SW p (c :: s) then r ++ rep p r (List.drop (p.length - 1) s)
      else c :: rep p r s := by
  simp only [rep, repGo]
  rw [repGo_skip p r s (p.length - 1)]

theorem SW_split :
    ∀ (b a t : List Char), SW a (b ++ t) = true →
      SW a b = true ∨ (SW b a = true ∧ SW (List.drop b.length a) t = true) := by
  intro b
  induction b with
  | nil =>
    intro a t h
    exact Or.inr ⟨rfl, by simpa using h⟩
  | cons x b ih =>
    intro a t h
    cases a with
    | nil => exact Or.inl rfl
    | cons y a =>
      simp only [List.cons_append, SW, Bool.and_eq_true] at h
      obtain ⟨hxy, h2⟩ := h
      rcases ih a t h2 with h3 | ⟨h3, h4⟩
      · exact Or.inl (by simp [SW, hxy, h3])
      · refine Or.inr ⟨?_, ?_⟩
        · have hyx : y = x := eq_of_beq hxy
          simp [SW, hyx, h3]
        · simpa using h4

theorem self_mem_suffixes : ∀ l : List Char, l ∈ suffixes l := by
  intro l; cases l <;> simp [suffixes]

theorem nil_mem_suffixes : ∀ l : List Char, [] ∈ suffixes l := by
  intro l
  induction l with
  | nil => simp [suffixes]
  | cons c s ih => simp only [suffixes, List.mem_cons]; exact Or.inr ih

theorem tail_mem_suffixes (l : List Char) (c : Char) (t : List Char)
    (h : (c :: t) ∈ suffixes l) : t ∈ suffixes l := by
  induction l with
  | nil => simp [suffixes] at h
  | cons x s ih =>
    simp only [suffixes, List.mem_cons] at h
    rcases h with h | h
    · rw [List.cons.injEq] at h
      rw [h.2]
      exact List.mem_cons_of_mem _ (self_mem_suffixes s)
    · exact List.mem_cons_of_mem _ (ih h)

theorem drop_mem_suffixes :
    ∀ (k : Nat) (l q : List Char), q ∈ suffixes l → List.drop k q ∈ suffixes l := by
  intro k
  induction k with
  | zero => intro l q h; simpa using h
  | succ j ih =>
    intro l q h
    cases q with
    | nil => simpa using nil_mem_suffixes l
    | cons c t =>
      have ht : t ∈ suffixes l := tail_mem_suffixes l c t h
      simpa [List.drop_succ_cons] using ih l t ht

theorem occB_append_split :
    ∀ (a b q : List Char), occB q (a ++ b) = true →
      occB q a = true
        ∨ (∃ a₁, a₁ ∈ suffixes a ∧ a₁ ≠ [] ∧ SW a₁ q = true)
        ∨ occB q b = true := by
  intro a
  induction a with
  | nil => intro b q h; exact Or.inr (Or.inr (by simpa using h))
  | cons c a ih =>
    intro b q h
    simp only [List.cons_append, occB, Bool.or_eq_true] at h
    rcases h with h | h
    · have h' : SW q ((c :: a) ++ b) = true := by
        rw [List.cons_append]; exact h
      rcases SW_split (c :: a) q b h' with h1 | ⟨h1, _⟩
      · exact Or.inl (by simp [occB, h1])
      · exact Or.inr (Or.inl ⟨c :: a, self_mem_suffixes _, by simp, h1⟩)
    · rcases ih b q h with h1 | ⟨a₁, hm, hne, hsw⟩ | h1
      · exact Or.inl (by simp [occB, h1])
      · exact Or.inr (Or.inl ⟨a₁, List.mem_cons_of_mem _ hm, hne, hsw⟩)
      · exact Or.inr (Or.inr h1)

theorem occB_drop (q : List Char) :
    ∀ (s : List Char) (k : Nat), occB q s = false →
      occB q (List.drop k s) = false := by
  intro s
  induction s with
  | nil => intro k h; simpa using h
  | cons c s ih =>
    intro k h
    cases k with
    | zero => simpa using h
    | succ j =>
      simp only [occB, Bool.or_eq_false_iff] at h
      rw [List.drop_succ_cons]
      exact ih j h.2

theorem rep_pref (p r q : List Char)
    (hc : ∀ q₁ ∈ suffixes q, q₁ ≠ [] → SW q₁ r = false ∧ SW r q₁ = false) :
    ∀ (s : List Char), ∀ q₁ ∈ suffixes q, SW q₁ (rep p r s) = true →
      SW q₁ s = true := by
  intro s
  induction s with
  | nil =>
    intro q₁ hm h
    cases q₁ with
    | nil => rfl
    | cons d q₂ =>
      rw [rep_nil] at h
      simp [SW] at h
  | cons c s ih =>
    intro q₁ hm h
    rw [rep_cons] at h
    by_cases hsw : SW p (c :: s) = true
    · rw [if_pos hsw] at h
      cases q₁ with
      | nil => rfl
      | cons d q₂ =>
        rcases SW_split r (d :: q₂) (rep p r (List.drop (p.length - 1) s)) h with
          h1 | ⟨h1, _⟩
        · rw [(hc _ hm (by simp)).1] at h1
          cases h1
        · rw [(hc _ hm (by simp)).2] at h1
          cases h1
    · rw [if_neg hsw] at h
      cases q₁ with
      | nil => rfl
      | cons d q₂ =>
        simp only [SW, Bool.and_eq_true] at h ⊢
        exact ⟨h.1, ih q₂ (tail_mem_suffixes q d q₂ hm) h.2⟩

theorem rep_no_self (p r : List Char) (hp : p ≠ [])
    (hc : ∀ q₁ ∈ suffixes p, q₁ ≠ [] → SW q₁ r = false ∧ SW r q₁ = false)
    (hocc : occB p r = false)
    (hspan : ∀ r₁ ∈ suffixes r, r₁ ≠ [] → SW r₁ p = false) :
    ∀ (s : List Char), occB p (rep p r s) = false := by
  have main : ∀ (n : Nat) (s : List Char), s.length ≤ n →
      occB p (rep p r s) = false := by
    intro n
    induction n with
    | zero =>
      intro s hs
      rw [List.length_eq_zero.mp (Nat.le_zero.mp hs), rep_nil]
      cases p with
      | nil => exact absurd rfl hp
      | cons d p' => simp [occB, SW]
    | succ n ih =>
      intro s hs
      cases s with
      | nil =>
        rw [rep_nil]
        cases p with
        | nil => exact absurd rfl hp
        | cons d p' => simp [occB, SW]
      | cons c s =>
        have hs' : s.length ≤ n := by
          simp only [List.length_cons] at hs; omega
        rw [rep_cons]
        by_cases hsw : SW p (c :: s) = true
        · rw [if_pos hsw]
          cases h3 : occB p (r ++ rep p r (List.drop (p.length - 1) s)) with
          | false => rfl
          | true =>
            rcases occB_append_split r (rep p r (List.drop (p.length - 1) s)) p h3
              with h4 | ⟨a₁, hm, hne, hswp⟩ | h4
            · rw [hocc] at h4; cases h4
            · rw [hspan a₁ hm hne] at hswp; cases hswp
            · have hlen : (List.drop (p.length - 1) s).length ≤ n := by
                rw [List.length_drop]; omega
              rw [ih (List.drop (p.length - 1) s) hlen] at h4
              cases h4
        · rw [if_neg hsw]
          have h1 : SW p (c :: rep p r s) = false := by
            cases h2 : SW p (c :: rep p r s) with
            | false => rfl
            | true =>
              have h3 : SW p (rep p r (c :: s)) = true := by
                rw [rep_cons, if_neg hsw]; exact h2
              have h4 := rep_pref p r p hc (c :: s) p (self_mem_suffixes p) h3
              exact absurd h4 hsw
          have h5 : occB p (rep p r s) = false := ih s hs'
          simp [occB, h1, h5]
  intro s
  exact main s.length s (le_refl _)

theorem rep_pres (p r q : List Char) (hq : q ≠ [])
    (hc : ∀ q₁ ∈ suffixes q, q₁ ≠ [] → SW q₁ r = false ∧ SW r q₁ = false)
    (hocc : occB q r = false)
    (hspan : ∀ r₁ ∈ suffixes r, r₁ ≠ [] → SW r₁ q = false) :
    ∀ (s : List Char), occB q s = false → occB q (rep p r s) = false := by
  have main : ∀ (n : Nat) (s : List Char), s.length ≤ n → occB q s = false →
      occB q (rep p r s) = false := by
    intro n
    induction n with
    | zero =>
      intro s hs h
      rw [List.length_eq_zero.mp (Nat.le_zero.mp hs), rep_nil]
      cases q with
      | nil => exact absurd rfl hq
      | cons d q' => simp [occB, SW]
    | succ n ih =>
      intro s hs h
      cases s with
      | nil =>
        rw [rep_nil]
        cases q with
        | nil => exact absurd rfl hq
        | cons d q' => simp [occB, SW]
      | cons c s =>
        have hs' : s.length ≤ n := by
          simp only [List.length_cons] at hs; omega
        simp only [occB, Bool.or_eq_false_iff] at h
        rw [rep_cons]
        by_cases hsw : SW p (c :: s) = true
        · rw [if_pos hsw]
          cases h3 : occB q (r ++ rep p r (List.drop (p.length - 1) s)) with
          | false => rfl
          | true =>
            rcases occB_append_split r (rep p r (List.drop (p.length - 1) s)) q h3
              with h4 | ⟨a₁, hm, hne, hswp⟩ | h4
            · rw [hocc] at h4; cases h4
            · rw [hspan a₁ hm hne] at hswp; cases hswp
            · have hlen : (List.drop (p.length - 1) s).length ≤ n := by
                rw [List.length_drop]; omega
              have hdrop : occB q (List.drop (p.length - 1) s) = false :=
                occB_drop q s (p.length - 1) h.2
              rw [ih (List.drop (p.length - 1) s) hlen hdrop] at h4
              cases h4
        · rw [if_neg hsw]
          have h1 : SW q (c :: rep p r s) = false := by
            cases h2 : SW q (c :: rep p r s) with
            | false => rfl
            | true =>
              have h3 : SW q (rep p r (c :: s)) = true := by
                rw [rep_cons, if_neg hsw]; exact h2
              have h4 := rep_pref p r q hc (c :: s) q (self_mem_suffixes q) h3
              rw [h.1] at h4
              cases h4
          have h5 : occB q (rep p r s) = false := ih s hs' h.2
          simp [occB, h1, h5]
  intro s
  exact main s.length s (le_refl _)

theorem rep_of_not_occ (p r : List Char) :
    ∀ (s : List Char), occB p s = false → rep p r s = s := by
  intro s
  induction s with
  | nil => intro _; exact rep_nil p r
  | cons c s ih =>
    intro h
    simp only [occB, Bool.or_eq_false_iff] at h
    rw [rep_cons, if_neg (by simp [h.1]), ih h.2]

theorem mem_rep (p r : List Char) :
    ∀ (s : List Char) (a : Char), a ∈ rep p r s → a ∈ r ∨ a ∈ s := by
  have main : ∀ (n : Nat) (s : List Char), s.length ≤ n →
      ∀ a, a ∈ rep p r s → a ∈ r ∨ a ∈ s := by
    intro n
    induction n with
    | zero =>
      intro s hs a ha
      rw [List.length_eq_zero.mp (Nat.le_zero.mp hs), rep_nil] at ha
      simp at ha
    | succ n ih =>
      intro s hs a ha
      cases s with
      | nil => rw [rep_nil] at ha; simp at ha
      | cons c s =>
        have hs' : s.length ≤ n := by
          simp only [List.length_cons] at hs; omega
        rw [rep_cons] at ha
        by_cases hsw : SW p (c :: s) = true
        · rw [if_pos hsw] at ha
          rcases List.mem_append.mp ha with h | h
          · exact Or.inl h
          · have hlen : (List.drop (p.length - 1) s).length ≤ n := by
              rw [List.length_drop]; omega
            rcases ih (List.drop (p.length - 1) s) hlen a h with h1 | h1
            · exact Or.inl h1
            · exact Or.inr (List.mem_cons_of_mem c (List.mem_of_mem_drop h1))
        · rw [if_neg hsw] at ha
          rcases List.mem_cons.mp ha with h | h
          · exact Or.inr (by simp [h])
          · rcases ih s hs' a h with h1 | h1
            · exact Or.inl h1
            · exact Or.inr (List.mem_cons_of_mem c h1)
  intro s
  exact main s.length s (le_refl _)

theorem isUpperAscii_toLowerAscii (c : Char) :
    isUpperAscii (toLowerAscii c) = false := by
  unfold toLowerAscii
  split
  · rename_i h
    unfold isUpperAscii at h
    rw [Bool.and_eq_true, decide_eq_true_eq, decide_eq_true_eq] at h
    obtain ⟨h1, h2⟩ := h
    generalize hm : c.toNat = m at h1 h2 ⊢
    interval_cases m <;> decide
  · rename_i h
    simpa using h

theorem ubGo_id :
    ∀ (l : List Char), (∀ c ∈ l, isUpperAscii c = false) → ubGo l = l := by
  intro l
  induction l with
  | nil => intro _; rfl
  | cons c s ih =>
    intro h
    have h1 : isUpperAscii c = false := h c (by simp)
    simp [ubGo, h1, ih (fun d hd => h d (List.mem_cons_of_mem c hd))]

theorem ub_id :
    ∀ (l : List Char), (∀ c ∈ l, isUpperAscii c = false) → ub l = l := by
  intro l
  cases l with
  | nil => intro _; rfl
  | cons c s =>
    intro h
    simp only [ub]
    rw [ubGo_id s (fun d hd => h d (List.mem_cons_of_mem c hd))]

theorem map_toLowerAscii_id :
    ∀ (l : List Char), (∀ c ∈ l, isUpperAscii c = false) →
      List.map toLowerAscii l = l := by
  intro l
  induction l with
  | nil => intro _; rfl
  | cons c s ih =>
    intro h
    have h1 : isUpperAscii c = false := h c (by simp)
    have h2 : toLowerAscii c = c := by simp [toLowerAscii, h1]
    simp [h2, ih (fun d hd => h d (List.mem_cons_of_mem c hd))]

theorem specInsertUnderscores_eq_ubGo :
    ∀ (l : List Char), specInsertUnderscores true l = ubGo l := by
  intro l
  induction l with
  | nil => rfl
  | cons c s ih =>
    simp only [specInsertUnderscores, ubGo, ih]
    by_cases h : isUpperAscii c = true
    · simp [h]
    · simp [Bool.eq_false_iff.mpr h]

theorem specInsertUnderscores_eq_ub :
    ∀ (l : List Char), specInsertUnderscores false l = ub l := by
  intro l
  cases l with
  | nil => rfl
  | cons c s =>
    simp only [specInsertUnderscores, ub, Bool.false_and]
    simp [specInsertUnderscores_eq_ubGo]

/- ===== Evaluation lemmas for the pipeline ===== -/

theorem generate_no_files (env : Env) (w : Workspace)
    (hjf : env.json_files = []) :
    generate env w = (.ok .skippedNoSource, w) := by
  unfold generate
  rw [hjf]

theorem generate_parse_err (env : Env) (w : Workspace) (f : String)
    (fs : List String) (hjf : env.json_files = f :: fs)
    (hd : env.docs f = none) :
    generate env w = (.error (.parseErr f), w) := by
  unfold generate
  rw [hjf]
  dsimp only
  rw [hd]

theorem generate_res_err (env : Env) (w : Workspace) (f : String)
    (fs : List String) (data : List (String × String))
    (hjf : env.json_files = f :: fs) (hd : env.docs f = some data)
    (hk : firstServiceKey data = none) :
    generate env w = (.error (.resolutionErr f), w) := by
  unfold generate
  rw [hjf]
  dsimp only
  rw [hd]
  dsimp only
  rw [hk]

theorem generate_copy_fail (env : Env) (w : Workspace) (f : String)
    (fs : List String) (data : List (String × String)) (key : String)
    (hjf : env.json_files = f :: fs) (hd : env.docs f = some data)
    (hk : firstServiceKey data = some key) (hcf : env.copyFails = true) :
    generate env w = (.error (.ioErr "copy"),
      { w with outDirExists := true, modelDirExists := true,
               buildDirExists := true }) := by
  unfold generate
  rw [hjf]
  dsimp only
  rw [hd]
  dsimp only
  rw [hk]
  dsimp only
  rw [hcf]
  simp

theorem generate_run (env : Env) (w : Workspace) (f : String)
    (fs : List String) (data : List (String × String)) (key : String)
    (hjf : env.json_files = f :: fs) (hd : env.docs f = some data)
    (hk : firstServiceKey data = some key) (hcf : env.copyFails = false) :
    generate env w =
      (.ok (if env.buildReturn = 0 then .succeeded else .failedBuild),
        { outDirExists := true, modelDirExists := true,
          buildDirExists := false,
          configFile := some (configText key), logFileExists := true,
          errorsFile :=
            if env.buildReturn = 0 then w.errorsFile
            else some env.agOutput }) := by
  unfold generate
  rw [hjf]
  dsimp only
  rw [hd]
  dsimp only
  rw [hk]
  dsimp only
  rw [hcf]
  by_cases hr : env.buildReturn = 0 <;> simp [hr]

/- ===== Lemmas about splitting and the trace ===== -/

theorem splitCh_ne_nil (sep : Char) : ∀ l : List Char, splitCh sep l ≠ [] := by
  intro l
  induction l with
  | nil => simp [splitCh]
  | cons c s ih =>
    simp only [splitCh]
    cases h : splitCh sep s with
    | nil => exact absurd h ih
    | cons r rs => by_cases hc : (c == sep) = true <;> simp [hc]

theorem splitCh_append (sep : Char) :
    ∀ (l₁ l₂ : List Char), sep ∉ l₁ →
      ∃ rs, splitCh sep (l₁ ++ sep :: l₂) = l₁ :: rs := by
  intro l₁
  induction l₁ with
  | nil =>
    intro l₂ _
    cases h : splitCh sep l₂ with
    | nil => exact absurd h (splitCh_ne_nil sep l₂)
    | cons r rs =>
      refine ⟨r :: rs, ?_⟩
      simp [splitCh, h]
  | cons c l₁ ih =>
    intro l₂ hs
    have hc : c ≠ sep := by
      intro hh
      exact hs (by simp [hh])
    obtain ⟨rs, hrs⟩ := ih l₂ (fun hm => hs (List.mem_cons_of_mem c hm))
    refine ⟨rs, ?_⟩
    simp only [List.cons_append, splitCh, List.append_eq]
    rw [hrs]
    simp [hc]

theorem map_getD_unitReport (envOf : String → Env) :
    ∀ (l : List String) (k : Nat), k < l.length →
      (l.map (fun sdk => Event.unitReport sdk (runUnit envOf sdk))).getD k
          (.summaryReport 0 0)
        = .unitReport (l.getD k "") (runUnit envOf (l.getD k "")) := by
  intro l
  induction l with
  | nil => intro k hk; simp at hk
  | cons s l ih =>
    intro k hk
    cases k with
    | zero => simp [List.getD]
    | succ m =>
      simp only [List.length_cons] at hk
      simp only [List.map_cons, List.getD_cons_succ]
      exact ih m (by omega)

theorem mainTrace_getD (sdks : List String) (envOf : String → Env)
    (cpus : Nat) (k : Nat) (hk : k < sdks.length) :
    (mainTrace sdks envOf cpus).getD k (.summaryReport 0 0)
      = .unitReport (sdks.getD k "") (runUnit envOf (sdks.getD k "")) := by
  unfold mainTrace
  rw [List.getD_append]
  · exact map_getD_unitReport envOf sdks k hk
  · simpa using hk

/- ===== Claims ===== -/

/-- Claim C1 (corrected, counterexample): the claim states that after ANY
terminal state, including an exception raised by a stage, the build
subdirectory does not exist. In the code the `shutil.rmtree` call is not in
a `finally` block: when `shutil.copy` raises after `os.makedirs` created
the build directory, the pipeline terminates by exception with the build
directory still present. -/
theorem c1_build_dir_persists_on_exception :
    (generate envCopyFail initWS).1 = .error (.ioErr "copy")
      ∧ (generate envCopyFail initWS).2.buildDirExists = true :=
  ⟨rfl, rfl⟩

/-- Claim C1 (amended): for every unit whose pipeline completes normally —
build success or build failure — the build subdirectory does not exist
afterwards, while the model directory and the configuration file do; a
stage exception after workspace creation instead leaves the build
subdirectory in place. -/
theorem c1_cleanup_on_normal_completion (env : Env)
    (h : (generate env initWS).1 = .ok .succeeded
          ∨ (generate env initWS).1 = .ok .failedBuild) :
    (generate env initWS).2.buildDirExists = false
      ∧ (generate env initWS).2.modelDirExists = true
      ∧ (generate env initWS).2.configFile ≠ none := by
  rcases hjf : env.json_files with _ | ⟨f, fs⟩
  · rw [generate_no_files env initWS hjf] at h
    simp at h
  · rcases hd : env.docs f with _ | data
    · rw [generate_parse_err env initWS f fs hjf hd] at h
      simp at h
    · rcases hk : firstServiceKey data with _ | key
      · rw [generate_res_err env initWS f fs data hjf hd hk] at h
        simp at h
      · rcases hcf : env.copyFails with _ | _
        · rw [generate_run env initWS f fs data key hjf hd hk hcf]
          simp
        · rw [generate_copy_fail env initWS f fs data key hjf hd hk hcf] at h
          simp at h

/-- Claim C1 witness: a successful unit satisfies the amended cleanup
invariant. -/
theorem c1_cleanup_witness :
    ((generate envOkBuild initWS).1 = .ok .succeeded
        ∨ (generate envOkBuild initWS).1 = .ok .failedBuild)
      ∧ ((generate envOkBuild initWS).2.buildDirExists = false
        ∧ (generate envOkBuild initWS).2.modelDirExists = true
        ∧ (generate envOkBuild initWS).2.configFile ≠ none) :=
  ⟨Or.inl (by rfl), c1_cleanup_on_normal_completion envOkBuild (Or.inl (by rfl))⟩

/-- Claim C2: the Name Deriver inserts an underscore before each internal
uppercase letter (none before a leading capital), lowercases, then applies
the three literal replacements in source order; the spec-side description
coincides with the source function, and the two cited examples evaluate as
stated, with no replacement double-applied. -/
theorem c2_name_deriver (x : String) :
    specDerive x = snake_case x
      ∧ snake_case "DynamoDB" = "dynamo_db"
      ∧ snake_case "AWSLambda" = "aws_lambda" := by
  refine ⟨?_, by decide, by decide⟩
  unfold specDerive snake_case
  rw [specInsertUnderscores_eq_ub]

/-- Claim C3 (corrected, counterexample): the claim states the module name
equals the last dot-delimited segment of the key portion before the hash
separator. In the code `module_name = snake_case(model_name)`: for the key
`com.amazonaws.DynamoDB#DynamoDB_20120810` the last dot segment is
`DynamoDB` while the module name is `dynamo_db`. -/
theorem c3_module_name_counterexample :
    model_name "com.amazonaws.DynamoDB#DynamoDB_20120810" = "DynamoDB"
      ∧ String.mk ((splitCh '.' ("com.amazonaws.DynamoDB".data)).getLastD [])
          = "DynamoDB"
      ∧ module_name "com.amazonaws.DynamoDB#DynamoDB_20120810" = "dynamo_db"
      ∧ module_name "com.amazonaws.DynamoDB#DynamoDB_20120810"
          ≠ model_name "com.amazonaws.DynamoDB#DynamoDB_20120810" :=
  ⟨by decide, by decide, by decide, by decide⟩

/-- Claim C3 (amended): for every key of the form prefix-hash-suffix with
no hash in the prefix, the MODEL name equals the last dot-delimited segment
of the prefix, the module name is the Name-Deriver output of that segment,
and the namespace is "aws." concatenated with that output; for the key
`com.amazonaws.s3#AmazonS3` the module name is `s3`, the namespace is
`aws.s3`, and the synthesized configuration carries namespace `aws.s3` in
its unison-codegen plugin entry. -/
theorem c3_derived_names (pre suf : List Char) (hp : '#' ∉ pre) :
    model_name (String.mk (pre ++ '#' :: suf))
        = String.mk ((splitCh '.' pre).getLastD [])
      ∧ module_name (String.mk (pre ++ '#' :: suf))
        = snake_case (String.mk ((splitCh '.' pre).getLastD []))
      ∧ module_namespace (String.mk (pre ++ '#' :: suf))
        = "aws." ++ snake_case (String.mk ((splitCh '.' pre).getLastD []))
      ∧ module_name "com.amazonaws.s3#AmazonS3" = "s3"
      ∧ module_namespace "com.amazonaws.s3#AmazonS3" = "aws.s3"
      ∧ (buildJson "com.amazonaws.s3#AmazonS3").plugin.namespace' = "aws.s3" := by
  have hm : model_name (String.mk (pre ++ '#' :: suf))
      = String.mk ((splitCh '.' pre).getLastD []) := by
    obtain ⟨rs, hrs⟩ := splitCh_append '#' pre suf hp
    unfold model_name
    show String.mk
        ((splitCh '.' ((splitCh '#' (pre ++ '#' :: suf)).headD [])).getLastD [])
      = _
    rw [hrs]
    rfl
  refine ⟨hm, ?_, ?_, by decide, by decide, by decide⟩
  · unfold module_name
    rw [hm]
  · unfold module_namespace module_name
    rw [hm]

/-- Claim C3 witness: the name derivation applied at the concrete key from
the end-to-end scenario. -/
theorem c3_derived_names_witness :
    ('#' ∉ ("com.amazonaws.s3".data))
      ∧ (model_name (String.mk (("com.amazonaws.s3".data) ++ '#' :: ("AmazonS3".data)))
          = String.mk ((splitCh '.' ("com.amazonaws.s3".data)).getLastD [])
        ∧ module_name (String.mk (("com.amazonaws.s3".data) ++ '#' :: ("AmazonS3".data)))
          = snake_case (String.mk ((splitCh '.' ("com.amazonaws.s3".data)).getLastD []))
        ∧ module_namespace (String.mk (("com.amazonaws.s3".data) ++ '#' :: ("AmazonS3".data)))
          = "aws." ++ snake_case (String.mk ((splitCh '.' ("com.amazonaws.s3".data)).getLastD []))
        ∧ module_name "com.amazonaws.s3#AmazonS3" = "s3"
        ∧ module_namespace "com.amazonaws.s3#AmazonS3" = "aws.s3"
        ∧ (buildJson "com.amazonaws.s3#AmazonS3").plugin.namespace' = "aws.s3") :=
  ⟨by decide,
    c3_derived_names ("com.amazonaws.s3".data) ("AmazonS3".data) (by decide)⟩

/-- Claim C4: for every unit reaching the build stage, the outcome is
recorded as success exactly when the external build exits 0 and failed for
any nonzero status; the diagnostic extractor runs and `errors.txt` is
written if and only if the build failed, and `errors.txt` holds exactly the
scrape output — so it is created even when the marker search finds
nothing. -/
theorem c4_build_outcome_and_diagnostics (env : Env) (f : String)
    (fs : List String) (data : List (String × String)) (key : String)
    (hjf : env.json_files = f :: fs) (hd : env.docs f = some data)
    (hk : firstServiceKey data = some key) (hcf : env.copyFails = false) :
    ((generate env initWS).1 = .ok .succeeded ↔ env.buildReturn = 0)
      ∧ ((generate env initWS).1 = .ok .failedBuild ↔ env.buildReturn ≠ 0)
      ∧ ((generate env initWS).2.errorsFile ≠ none ↔ env.buildReturn ≠ 0)
      ∧ (env.buildReturn ≠ 0 →
          (generate env initWS).2.errorsFile = some env.agOutput) := by
  rw [generate_run env initWS f fs data key hjf hd hk hcf]
  by_cases hr : env.buildReturn = 0 <;> simp [hr, initWS]

/-- Claim C4 witness: a build exiting 2 with an empty scrape output is
recorded as failed and still gets an (empty) `errors.txt`. -/
theorem c4_diagnostics_witness :
    (envFailBuild.json_files = ["api-models-aws-main/models/s3/model.json"]
      ∧ envFailBuild.docs "api-models-aws-main/models/s3/model.json"
          = some sampleShapes
      ∧ firstServiceKey sampleShapes = some "com.amazonaws.s3#AmazonS3"
      ∧ envFailBuild.copyFails = false)
      ∧ (((generate envFailBuild initWS).1 = .ok .succeeded
            ↔ envFailBuild.buildReturn = 0)
        ∧ ((generate envFailBuild initWS).1 = .ok .failedBuild
            ↔ envFailBuild.buildReturn ≠ 0)
        ∧ ((generate envFailBuild initWS).2.errorsFile ≠ none
            ↔ envFailBuild.buildReturn ≠ 0)
        ∧ (envFailBuild.buildReturn ≠ 0 →
            (generate envFailBuild initWS).2.errorsFile
              = some envFailBuild.agOutput)) :=
  ⟨⟨rfl, rfl, rfl, rfl⟩,
    c4_build_outcome_and_diagnostics envFailBuild
      "api-models-aws-main/models/s3/model.json" []
      sampleShapes "com.amazonaws.s3#AmazonS3" rfl rfl rfl rfl⟩

/-- Claim C5: for every unit with zero description files, the pipeline
reports the skipped (no-source) outcome, terminates without raising, and
leaves the workspace state untouched (no workspace directory is
created). -/
theorem c5_skipped_no_source (env : Env) (w : Workspace)
    (h : env.json_files = []) :
    generate env w = (.ok .skippedNoSource, w)
      ∧ outcomeOf (generate env w).1 = .skipped := by
  have h1 := generate_no_files env w h
  exact ⟨h1, by rw [h1]; rfl⟩

/-- Claim C5 witness: the skip path at a concrete empty unit directory. -/
theorem c5_skipped_witness :
    envNoFiles.json_files = []
      ∧ (generate envNoFiles initWS = (.ok .skippedNoSource, initWS)
        ∧ outcomeOf (generate envNoFiles initWS).1 = .skipped) :=
  ⟨rfl, c5_skipped_no_source envNoFiles initWS rfl⟩

/-- Claim C6: an exception raised inside one unit pipeline is caught at the
scheduler boundary and reported as that unit's errored outcome carrying the
unit id and the error value, while every other submitted unit keeps its own
independently computed report and the trace still covers all units plus the
summary. -/
theorem c6_unit_error_isolated (sdks : List String) (envOf : String → Env)
    (cpus : Nat) (i j : Nat) (e : PyErr)
    (hi : i < sdks.length) (hj : j < sdks.length)
    (he : (generate (envOf (sdks.getD i "")) initWS).1 = .error e) :
    (mainTrace sdks envOf cpus).getD i (.summaryReport 0 0)
        = .unitReport (sdks.getD i "") (.errored e)
      ∧ (mainTrace sdks envOf cpus).getD j (.summaryReport 0 0)
        = .unitReport (sdks.getD j "") (runUnit envOf (sdks.getD j ""))
      ∧ (mainTrace sdks envOf cpus).length = sdks.length + 1 := by
  refine ⟨?_, mainTrace_getD sdks envOf cpus j hj, by simp [mainTrace]⟩
  rw [mainTrace_getD sdks envOf cpus i hi]
  unfold runUnit
  rw [he]
  rfl

/-- Claim C6 witness: in a two-unit run where the first unit raises an
IOError, the first report is errored and the second unit still completes
with its own report. -/
theorem c6_isolation_witness :
    (0 < (["s3", "dynamodb"] : List String).length
      ∧ 1 < (["s3", "dynamodb"] : List String).length
      ∧ (generate (envOfSample ((["s3", "dynamodb"] : List String).getD 0 "")) initWS).1
          = .error (.ioErr "copy"))
      ∧ ((mainTrace ["s3", "dynamodb"] envOfSample 8).getD 0 (.summaryReport 0 0)
          = .unitReport ((["s3", "dynamodb"] : List String).getD 0 "")
              (.errored (.ioErr "copy"))
        ∧ (mainTrace ["s3", "dynamodb"] envOfSample 8).getD 1 (.summaryReport 0 0)
          = .unitReport ((["s3", "dynamodb"] : List String).getD 1 "")
              (runUnit envOfSample ((["s3", "dynamodb"] : List String).getD 1 ""))
        ∧ (mainTrace ["s3", "dynamodb"] envOfSample 8).length
          = (["s3", "dynamodb"] : List String).length + 1) :=
  ⟨⟨by decide, by decide, by rfl⟩,
    c6_unit_error_isolated ["s3", "dynamodb"] envOfSample 8 0 1 (.ioErr "copy")
      (by decide) (by decide) (by rfl)⟩

/-- Claim C7: every submitted unit is reported with exactly one terminal
outcome, the count of terminal reports equals the number of submitted
units, and the summary is the final event of the trace, printed only after
all per-unit reports. -/
theorem c7_terminal_report_accounting (sdks : List String)
    (envOf : String → Env) (cpus : Nat) :
    (mainTrace sdks envOf cpus).length = sdks.length + 1
      ∧ (mainTrace sdks envOf cpus).getLast?
          = some (.summaryReport sdks.length (maxWorkers sdks.length cpus))
      ∧ (mainTrace sdks envOf cpus).dropLast
          = sdks.map (fun sdk => Event.unitReport sdk (runUnit envOf sdk))
      ∧ (mainTrace sdks envOf cpus).countP isUnitReport = sdks.length := by
  unfold mainTrace
  refine ⟨by simp, ?_, ?_, ?_⟩
  · rw [List.getLast?_concat]
  · rw [List.dropLast_concat]
  · rw [List.countP_append, List.countP_map]
    have h2 : List.countP isUnitReport
        [Event.summaryReport sdks.length (maxWorkers sdks.length cpus)] = 0 := rfl
    rw [h2, Nat.add_zero]
    exact List.countP_eq_length.mpr (fun a _ => rfl)

/-- Claim C8: the worker pool size is min(number of units, 4 times the
available CPU cores, 64), with 64 the fixed hard cap; the source expression
agrees with the spec-side formula and respects all three bounds. -/
theorem c8_worker_pool_size (n p : Nat) :
    maxWorkers n p = specPoolSize n p 64
      ∧ maxWorkers n p ≤ n ∧ maxWorkers n p ≤ 4 * p ∧ maxWorkers n p ≤ 64 := by
  unfold maxWorkers specPoolSize
  omega

/-- Claim C9: the synthesized configuration document is a function of the
extracted service key alone: two pipeline runs (same unit, unchanged source,
hence the same key) write byte-identical configuration files, regardless of
the prior workspace state and of the build result. -/
theorem c9_config_determinism (env1 env2 : Env) (w1 w2 : Workspace)
    (f1 f2 : String) (fs1 fs2 : List String)
    (d1 d2 : List (String × String)) (key : String)
    (h1 : env1.json_files = f1 :: fs1) (h2 : env1.docs f1 = some d1)
    (h3 : firstServiceKey d1 = some key) (h4 : env1.copyFails = false)
    (h5 : env2.json_files = f2 :: fs2) (h6 : env2.docs f2 = some d2)
    (h7 : firstServiceKey d2 = some key) (h8 : env2.copyFails = false) :
    (generate env1 w1).2.configFile = some (configText key)
      ∧ (generate env1 w1).2.configFile = (generate env2 w2).2.configFile := by
  have ha : (generate env1 w1).2.configFile = some (configText key) := by
    rw [generate_run env1 w1 f1 fs1 d1 key h1 h2 h3 h4]
  have hb : (generate env2 w2).2.configFile = some (configText key) := by
    rw [generate_run env2 w2 f2 fs2 d2 key h5 h6 h7 h8]
  exact ⟨ha, ha.trans hb.symm⟩

/-- Claim C9 witness: a failing run and a succeeding run of the same unit
write the same configuration bytes. -/
theorem c9_determinism_witness :
    (envFailBuild.json_files = ["api-models-aws-main/models/s3/model.json"]
      ∧ envOkBuild.copyFails = false)
      ∧ ((generate envFailBuild initWS).2.configFile
          = some (configText "com.amazonaws.s3#AmazonS3")
        ∧ (generate envFailBuild initWS).2.configFile
          = (generate envOkBuild initWS).2.configFile) :=
  ⟨⟨rfl, rfl⟩,
    c9_config_determinism envFailBuild envOkBuild initWS initWS
      "api-models-aws-main/models/s3/model.json"
      "api-models-aws-main/models/s3/model.json" [] []
      sampleShapes sampleShapes "com.amazonaws.s3#AmazonS3"
      rfl rfl rfl rfl rfl rfl rfl rfl⟩

/-- Claim C10: the Name Deriver is idempotent — applying `snake_case` to
its own output changes nothing, for every input string: the output contains
no uppercase letters, so the boundary pass and the lowercasing are inert on
a second run, and no replacement output recreates any replacement search
pattern. -/
theorem c10_snake_case_idempotent (x : String) :
    snake_case (snake_case x) = snake_case x := by
  have hyU : ∀ c ∈ List.map toLowerAscii (ub x.data), isUpperAscii c = false := by
    intro c hc
    rcases List.mem_map.mp hc with ⟨a, _, rfl⟩
    exact isUpperAscii_toLowerAscii a
  set y := List.map toLowerAscii (ub x.data) with hy
  set z1 := rep ("a_w_s".data) ("aws".data) y with hz1
  set z2 := rep ("e_c2".data) ("ec2".data) z1 with hz2
  set z3 := rep ("_d_b".data) ("_db".data) z2 with hz3
  have hz1U : ∀ c ∈ z1, isUpperAscii c = false := by
    intro c hc
    rcases mem_rep _ _ y c hc with h | h
    · have hall : ∀ d ∈ ("aws".data), isUpperAscii d = false := by decide
      exact hall c h
    · exact hyU c h
  have hz2U : ∀ c ∈ z2, isUpperAscii c = false := by
    intro c hc
    rcases mem_rep _ _ z1 c hc with h | h
    · have hall : ∀ d ∈ ("ec2".data), isUpperAscii d = false := by decide
      exact hall c h
    · exact hz1U c h
  have hz3U : ∀ c ∈ z3, isUpperAscii c = false := by
    intro c hc
    rcases mem_rep _ _ z2 c hc with h | h
    · have hall : ∀ d ∈ ("_db".data), isUpperAscii d = false := by decide
      exact hall c h
    · exact hz2U c h
  have hA1 : occB ("a_w_s".data) z1 = false :=
    rep_no_self _ _ (by decide) (by decide) (by decide) (by decide) y
  have hB1 : occB ("a_w_s".data) z2 = false :=
    rep_pres ("e_c2".data) ("ec2".data) ("a_w_s".data)
      (by decide) (by decide) (by decide) (by decide) z1 hA1
  have hB1' : occB ("a_w_s".data) z3 = false :=
    rep_pres ("_d_b".data) ("_db".data) ("a_w_s".data)
      (by decide) (by decide) (by decide) (by decide) z2 hB1
  have hA2 : occB ("e_c2".data) z2 = false :=
    rep_no_self _ _ (by decide) (by decide) (by decide) (by decide) z1
  have hB2 : occB ("e_c2".data) z3 = false :=
    rep_pres ("_d_b".data) ("_db".data) ("e_c2".data)
      (by decide) (by decide) (by decide) (by decide) z2 hA2
  have hA3 : occB ("_d_b".data) z3 = false :=
    rep_no_self _ _ (by decide) (by decide) (by decide) (by decide) z2
  have hx : snake_case x = String.mk z3 := rfl
  rw [hx]
  show String.mk (rep ("_d_b".data) ("_db".data)
    (rep ("e_c2".data) ("ec2".data)
      (rep ("a_w_s".data) ("aws".data)
        (List.map toLowerAscii (ub (String.mk z3).data))))) = String.mk z3
  have hdata : (String.mk z3).data = z3 := rfl
  rw [hdata, ub_id z3 hz3U, map_toLowerAscii_id z3 hz3U,
    rep_of_not_occ _ _ z3 hB1', rep_of_not_occ _ _ z3 hB2,
    rep_of_not_occ _ _ z3 hA3]
